import Mathlib

/-!
Verification of the C++ class `LocalMinReverseCommunication`.

Shallow embedding of `src/include/LocalMinReverseCommunication.hpp`: a
reverse-communication variant of Brent's local minimization algorithm,
implemented in C++ as a class with private mutable state and a single
step operator `operator()(double value)`.

Modelling choices:

* The C++ `double` arithmetic is modelled over an arbitrary
  `LinearOrderedField K` (instantiated at `ℚ` in executable witnesses);
  rounding is not modelled.  The three numeric constants of the source -
  `tol` (machine epsilon), `eps = sqrt(tol)` and
  `c = 0.5 * (3 - sqrt 5)` (assigned to the member `c` on the first
  call) - are parameters `tol eps cval : K` of the step function, since
  `sqrt 5` is irrational.
* The private members of the class become the fields of `LMState`; the
  member function `operator()` becomes the pure function `step`
  returning the new state together with the returned point.
* NaN matters only for the constructor's `b <= a` check (IEEE
  comparisons with NaN are false), so the constructor is modelled
  separately over `Fl K`, which adjoins a NaN element to `K`, with the
  IEEE rule that any comparison involving NaN is false.
* `std::copysign(m, s)` returns `|m|` with the sign of `s`; the sign of
  a zero `s` is treated as positive (the embedding has no signed zero).
-/

namespace LocalMinRC

/-- The private members of the C++ class `LocalMinReverseCommunication`,
in declaration order: bracket `a`, `b`; `iteration`; the returned point
`arg`; the golden-ratio constant `c`; step sizes `d`, `e`; cached values
`fu`, `fv`, `fw`, `fx`; parabola scratch `p`, `q`, `r`; probe points
`u`, `v`, `w`, `x`. -/
structure LMState (K : Type) where
  a : K
  b : K
  iteration : Int
  arg : K
  c : K
  d : K
  e : K
  fu : K
  fv : K
  fw : K
  fx : K
  p : K
  q : K
  r : K
  u : K
  v : K
  w : K
  x : K
deriving DecidableEq

variable {K : Type} [LinearOrderedField K]

/-- The state right after a successful construction: `a`, `b` from the
constructor arguments, every other member at its C++ default member
initializer (`iteration = 0`, all `double` members `0.0`). -/
def initState (lo hi : K) : LMState K :=
  { a := lo, b := hi, iteration := 0, arg := 0, c := 0, d := 0, e := 0,
    fu := 0, fv := 0, fw := 0, fx := 0, p := 0, q := 0, r := 0, u := 0,
    v := 0, w := 0, x := 0 }

/-- The query `IsReady() const { return iteration == 0; }`. -/
def IsReady (s : LMState K) : Bool :=
  s.iteration == 0

/-- Model of `std::copysign (mag, sgn)`: `|mag|` carrying the sign of `sgn`,
with the sign of `0` treated as positive. -/
def copysign (mag sgn : K) : K :=
  if sgn < 0 then -|mag| else |mag|

/-- The scaled tolerance `tol1 = eps * fabs (x) + tol / 3.0` of the shared tail. -/
def tol1 (tol eps : K) (s : LMState K) : K :=
  eps * |s.x| + tol / 3

/-- The bracket midpoint `midpoint = 0.5 * (a + b)` of the shared tail. -/
def midpt (s : LMState K) : K :=
  (s.a + s.b) / 2

/-- The quantity `r = (x - w) * (fx - fv)` of the parabola fit. -/
def rfit (s : LMState K) : K :=
  (s.x - s.w) * (s.fx - s.fv)

/-- The quantity `q = (x - v) * (fx - fw)` of the parabola fit (before the
`q = 2.0 * (q - r)` reassignment). -/
def qfit0 (s : LMState K) : K :=
  (s.x - s.v) * (s.fx - s.fw)

/-- The final `q` of the parabola fit: `q = 2.0 * (q - r)` followed by
`q = fabs (q)`. -/
def qfit (s : LMState K) : K :=
  |2 * (qfit0 s - rfit s)|

/-- The final `p` of the parabola fit:
`p = (x - v) * q - (x - w) * r`, negated when `0.0 < q` (with `q` the
pre-`fabs` value `2.0 * (q - r)`). -/
def pfit (s : LMState K) : K :=
  if 0 < 2 * (qfit0 s - rfit s) then
    -((s.x - s.v) * qfit0 s - (s.x - s.w) * rfit s)
  else
    (s.x - s.v) * qfit0 s - (s.x - s.w) * rfit s

/-- The golden-section direction: `e = a - x` if `midpoint <= x` else
`e = b - x`. -/
def goldenDir (s : LMState K) : K :=
  if midpt s ≤ s.x then s.a - s.x else s.b - s.x

/-- The state update performed by the phase branches of `operator()`
before the shared tail:
* `iteration == 1`: `fx = value; fv = fx; fw = fx;`
* `2 <= iteration`: record `fu = value` and update the bracket and the
  triple `(x, w, v)` by the `fu <= fx` comparison exactly as the source
  does (all right-hand sides read the pre-call member values, matching
  the C++ assignment order);
* any other iteration value falls through unchanged (the phase-0 early
  return never reaches this function). -/
def updateState (s : LMState K) (value : K) : LMState K :=
  if s.iteration = 1 then
    { s with fx := value, fv := value, fw := value }
  else if 2 ≤ s.iteration then
    if value ≤ s.fx then
      { s with
        fu := value,
        a := if s.x ≤ s.u then s.x else s.a,
        b := if s.x ≤ s.u then s.b else s.x,
        v := s.w, fv := s.fw, w := s.x, fw := s.fx, x := s.u, fx := value }
    else if value ≤ s.fw ∨ s.w = s.x then
      { s with
        fu := value,
        a := if s.u < s.x then s.u else s.a,
        b := if s.u < s.x then s.b else s.u,
        v := s.w, fv := s.fw, w := s.u, fw := value }
    else if value ≤ s.fv ∨ s.v = s.x ∨ s.v = s.w then
      { s with
        fu := value,
        a := if s.u < s.x then s.u else s.a,
        b := if s.u < s.x then s.b else s.u,
        v := s.u, fv := value }
    else
      { s with
        fu := value,
        a := if s.u < s.x then s.u else s.a,
        b := if s.u < s.x then s.b else s.u }
  else
    s

/-- The step-size selection of the shared tail (everything between the
convergence test and the "F must not be evaluated too close to X"
block).  Produces the state with the members `d`, `e` (and, on the
parabola path, `p`, `q`, `r`, `u`) updated:
* golden-section when `fabs (e) <= tol1`;
* otherwise fit the parabola; reject it (recomputing the golden-section
  `e`, `d`) when `fabs (0.5 * q * r) <= fabs (p)` - where `r` has just
  been reassigned to the previous `e` - or `p <= q * (a - x)` or
  `q * (b - x) <= p`; otherwise `d = p / q`, `u = x + d`, and the two
  source clamps `(u - a) < tol2` and `(b - u) < tol2` (which assign the
  identical value, hence one disjunction here) force
  `d = copysign (tol1, midpoint - x)`. -/
def chooseStep (tol eps : K) (s : LMState K) : LMState K :=
  if |s.e| ≤ tol1 tol eps s then
    { s with e := goldenDir s, d := s.c * goldenDir s }
  else if |qfit s * s.e / 2| ≤ |pfit s| ∨ pfit s ≤ qfit s * (s.a - s.x) ∨
      qfit s * (s.b - s.x) ≤ pfit s then
    { s with
      p := pfit s, q := qfit s, r := s.e,
      e := goldenDir s, d := s.c * goldenDir s }
  else
    { s with
      p := pfit s, q := qfit s, r := s.e, e := s.d,
      d := if s.x + pfit s / qfit s - s.a < 2 * tol1 tol eps s ∨
          s.b - (s.x + pfit s / qfit s) < 2 * tol1 tol eps s then
        copysign (tol1 tol eps s) (midpt s - s.x)
      else pfit s / qfit s,
      u := s.x + pfit s / qfit s }

/-- The final trial point: `u = x + d` when `tol1 <= fabs (d)`, else
`u = x + copysign (tol1, d)`.  (`x` and hence `tol1` are unchanged by
`chooseStep`.) -/
def nextPoint (tol eps : K) (s : LMState K) : K :=
  if tol1 tol eps s ≤ |s.d| then s.x + s.d else s.x + copysign (tol1 tol eps s) s.d

/-- The shared tail of `operator()` (everything after the phase
branches): the convergence test `fabs (x - midpoint) <= tol2 - 0.5 *
(b - a)` with `tol2 = 2.0 * tol1`, which on success sets
`iteration = 0` and returns the stored `arg`; otherwise the step
selection, the final trial point, `arg = u`,
`iteration = iteration + 1`, and `u` is returned. -/
def sharedTail (tol eps : K) (s : LMState K) : LMState K × K :=
  if |s.x - midpt s| ≤ 2 * tol1 tol eps s - (s.b - s.a) / 2 then
    ({ s with iteration := 0 }, s.arg)
  else
    ({ chooseStep tol eps s with
        u := nextPoint tol eps (chooseStep tol eps s),
        arg := nextPoint tol eps (chooseStep tol eps s),
        iteration := (chooseStep tol eps s).iteration + 1 },
      nextPoint tol eps (chooseStep tol eps s))

/-- The step operator `operator()(value)`: the phase-0 early return (`c` is assigned its
constant, `v = w = x = a + c * (b - a)`, `e = 0`, `iteration = 1`,
`arg = x` is returned); every other call runs the phase update followed
by the shared tail. -/
def step (tol eps cval : K) (s : LMState K) (value : K) : LMState K × K :=
  if s.iteration = 0 then
    ({ s with
        c := cval,
        v := s.a + cval * (s.b - s.a),
        w := s.a + cval * (s.b - s.a),
        x := s.a + cval * (s.b - s.a),
        e := 0, iteration := 1,
        arg := s.a + cval * (s.b - s.a) },
      s.a + cval * (s.b - s.a))
  else
    sharedTail tol eps (updateState s value)

/-- States reachable by constructing on a valid interval and making any
sequence of `step` calls with arbitrary supplied values. -/
inductive Reaches (tol eps cval : K) : LMState K → Prop where
  | init (lo hi : K) : lo < hi → Reaches tol eps cval (initState lo hi)
  | next (s : LMState K) (v : K) : Reaches tol eps cval s →
      Reaches tol eps cval (step tol eps cval s v).1

/-- A `double` that may be NaN: used to model the constructor's
`b <= a` check under IEEE comparison semantics.  (IEEE infinities
order like extreme ordinary values and need no special case for the
claims below.) -/
inductive Fl (K : Type) where
  | nan : Fl K
  | fin : K → Fl K
deriving DecidableEq

/-- IEEE `<=` on values that may be NaN: any comparison involving NaN
is false. -/
def fle : Fl K → Fl K → Bool
  | Fl.nan, _ => false
  | Fl.fin _, Fl.nan => false
  | Fl.fin xv, Fl.fin yv => decide (xv ≤ yv)

/-- The data a successful construction stores (the interval; every
other member keeps its default initializer, cf. `initState`). -/
structure LMInit (K : Type) where
  a : Fl K
  b : Fl K
deriving DecidableEq

/-- The constructor: stores the interval, but throws
(`std::runtime_error`, modelled as `Except.error` carrying both
offending bounds) exactly when `b <= a` under IEEE comparison. -/
def mkLocalMin (lo hi : Fl K) : Except (Fl K × Fl K) (LMInit K) :=
  if fle hi lo then Except.error (lo, hi) else Except.ok ⟨lo, hi⟩

/-- Concrete state for the C1 witness: the state after one phase-0
call on `[0, 1]` (with the large `tol = 3` of the witness, the next
call converges). -/
def s1C1 : LMState ℚ :=
  { a := 0, b := 1, iteration := 1, arg := 1/4, c := 1/4, d := 0, e := 0,
    fu := 0, fv := 0, fw := 0, fx := 0, p := 0, q := 0, r := 0, u := 0,
    v := 1/4, w := 1/4, x := 1/4 }

/-- Concrete mid-search state for the C2 witness. -/
def sC2 : LMState ℚ :=
  { a := 0, b := 1, iteration := 2, arg := 7/16, c := 1/4, d := 3/16,
    e := 3/4, fu := 0, fv := 10, fw := 10, fx := 10, p := 0, q := 0,
    r := 0, u := 7/16, v := 1/4, w := 1/4, x := 1/4 }

/-- Concrete mid-search state for the C3 counterexample: feeding it the
value `1` rejects the fitted parabola solely because the predicted
point lands exactly on the bracket boundary. -/
def sC3 : LMState ℚ :=
  { a := -6, b := 1/2, iteration := 2, arg := 0, c := 1/4, d := 0,
    e := 2, fu := 0, fv := -1, fw := -1, fx := 0, p := 0, q := 0,
    r := 0, u := -5, v := 3, w := -2, x := 0 }

/-- The post-update state of the C3 counterexample call. -/
def tC3 : LMState ℚ :=
  updateState sC3 1

/-- Concrete non-converged state in the golden-section branch, for the
C3 witness. -/
def gC3 : LMState ℚ :=
  { a := 0, b := 1, iteration := 1, arg := 1/4, c := 1/4, d := 0, e := 0,
    fu := 0, fv := 10, fw := 10, fx := 10, p := 0, q := 0, r := 0,
    u := 0, v := 1/4, w := 1/4, x := 1/4 }

/-- Concrete state for the C7 witness: one phase-0 call on `[0, 1]`
with a small `tol`, so that the next call proposes a point. -/
def s1C7 : LMState ℚ :=
  (step (3/100) 0 (1/4) (initState 0 1) 0).1

/-- Concrete state for the C9 witness: two calls on `[0, 1]`; the
second call (value `10`) proposes the trial point `7/16`, and feeding
a worse value (`20`) at it makes the third call converge. -/
def s2C9 : LMState ℚ :=
  (step (3/8) 0 (1/4) ((step (3/8) 0 (1/4) (initState 0 1) 0).1) 10).1

lemma step_of_ne (tol eps cval : K) (s : LMState K) (v : K) (h : s.iteration ≠ 0) :
    step tol eps cval s v = sharedTail tol eps (updateState s v) := by
  simp [step, h]

lemma tail_conv (tol eps : K) (s : LMState K)
    (h : |s.x - midpt s| ≤ 2 * tol1 tol eps s - (s.b - s.a) / 2) :
    sharedTail tol eps s = ({ s with iteration := 0 }, s.arg) := by
  rw [sharedTail, if_pos h]

/-- Members never written by the shared tail (either branch). -/
lemma tail_keeps (tol eps : K) (s : LMState K) :
    (sharedTail tol eps s).1.a = s.a ∧ (sharedTail tol eps s).1.b = s.b ∧
    (sharedTail tol eps s).1.x = s.x ∧ (sharedTail tol eps s).1.v = s.v ∧
    (sharedTail tol eps s).1.w = s.w ∧ (sharedTail tol eps s).1.fx = s.fx ∧
    (sharedTail tol eps s).1.fv = s.fv ∧ (sharedTail tol eps s).1.fw = s.fw ∧
    (sharedTail tol eps s).1.fu = s.fu ∧ (sharedTail tol eps s).1.c = s.c := by
  unfold sharedTail chooseStep
  split_ifs <;> simp

/-- Effect of the non-converged shared tail on the remaining members. -/
lemma tail_frame (tol eps : K) (s : LMState K)
    (hnc : ¬ |s.x - midpt s| ≤ 2 * tol1 tol eps s - (s.b - s.a) / 2) :
    (sharedTail tol eps s).1.iteration = s.iteration + 1 ∧
    (sharedTail tol eps s).1.u = (sharedTail tol eps s).2 ∧
    (sharedTail tol eps s).1.arg = (sharedTail tol eps s).2 := by
  unfold sharedTail
  rw [if_neg hnc]
  unfold chooseStep
  split_ifs <;> simp

/-- Members never written by the phase update. -/
lemma update_keeps (s : LMState K) (v : K) :
    (updateState s v).iteration = s.iteration ∧ (updateState s v).arg = s.arg ∧
    (updateState s v).u = s.u ∧ (updateState s v).c = s.c ∧
    (updateState s v).d = s.d ∧ (updateState s v).e = s.e := by
  unfold updateState
  split_ifs <;> simp

/-- Claim C8: a `Step` call made while `iterationCount == 0` ignores its
argument - two calls from the same state with different supplied values
return the same point and leave identical state - and it initializes
`x = w = v = low + c * (high - low)`, sets `e = 0` and
`iterationCount = 1`, and returns `x`.  (The constant `c`, which the
source sets to `0.5 * (3.0 - sqrt (5.0))` in this branch, is the
parameter `cval` of the embedding.) -/
theorem claim_C8 (tol eps cval : K) (s : LMState K) (v1 v2 : K)
    (h : s.iteration = 0) :
    step tol eps cval s v1 = step tol eps cval s v2 ∧
    (step tol eps cval s v1).2 = s.a + cval * (s.b - s.a) ∧
    (step tol eps cval s v1).1.x = s.a + cval * (s.b - s.a) ∧
    (step tol eps cval s v1).1.w = s.a + cval * (s.b - s.a) ∧
    (step tol eps cval s v1).1.v = s.a + cval * (s.b - s.a) ∧
    (step tol eps cval s v1).1.e = 0 ∧
    (step tol eps cval s v1).1.iteration = 1 ∧
    (step tol eps cval s v1).1.arg = s.a + cval * (s.b - s.a) := by
  simp [step, h]

theorem claim_C8_witness :
    step (3 : ℚ) 0 (1/4) (initState 0 1) 5 = step 3 0 (1/4) (initState 0 1) 7 ∧
    (step (3 : ℚ) 0 (1/4) (initState 0 1) 5).2 = 0 + 1/4 * (1 - 0) := by
  have h := claim_C8 (3 : ℚ) 0 (1/4) (initState 0 1) 5 7 rfl
  exact ⟨h.1, h.2.1⟩

/-- Claim C5: construction fails, with the error carrying both
offending bounds, exactly when `high <= low` holds under IEEE
comparison; otherwise it succeeds storing the interval, and the
resulting algorithm state has `iterationCount = 0`.  `Step` itself is
a total function of the state and the supplied value: the embedding's
`step` has no error outcome at all, which is the claim's "no error or
validation path". -/
theorem claim_C5 (tol eps cval : K) (lo hi : Fl K) :
    ((∃ st, mkLocalMin lo hi = Except.ok st) ↔ fle hi lo = false) ∧
    (fle hi lo = true → mkLocalMin lo hi = Except.error (lo, hi)) ∧
    (∀ st, mkLocalMin lo hi = Except.ok st → st = ⟨lo, hi⟩) ∧
    (∀ lo' hi' : K, (initState lo' hi').iteration = 0) ∧
    (∀ (s : LMState K) (value : K), ∃ t, step tol eps cval s value = t) := by
  unfold mkLocalMin
  rcases h : fle hi lo <;> simp [h, initState]

theorem claim_C5_witness :
    mkLocalMin (K := ℚ) (Fl.fin 1) (Fl.fin 0) = Except.error (Fl.fin 1, Fl.fin 0) :=
  (claim_C5 (3 : ℚ) 0 (1/4) (Fl.fin 1) (Fl.fin 0)).2.1 (by decide)

/-- Claim C10: when either bound is NaN the rejection test `b <= a` is
false (IEEE comparisons involving NaN are false), so construction
succeeds and stores the NaN interval. -/
theorem claim_C10 (lo hi : Fl K) (h : lo = Fl.nan ∨ hi = Fl.nan) :
    mkLocalMin lo hi = Except.ok ⟨lo, hi⟩ := by
  have hf : fle hi lo = false := by
    rcases h with h | h
    · subst h; cases hi <;> rfl
    · subst h; rfl
  simp [mkLocalMin, hf]

theorem claim_C10_witness :
    mkLocalMin (K := ℚ) Fl.nan (Fl.fin 1) = Except.ok ⟨Fl.nan, Fl.fin 1⟩ :=
  claim_C10 Fl.nan (Fl.fin 1) (Or.inl rfl)

/-- Claim C2: in phase `>= 2` with supplied value `v` (the objective at
the previous trial point `u`): if `v <= fx` the bracket shrinks on the
side of `x` relative to `u` and the triple rotates
`(v, fv) <- (w, fw) <- (x, fx) <- (u, value)`; otherwise the bracket
shrinks in the complementary sense and `w` (resp. `v`) is replaced by
`(u, value)` under the source's tie-break rules, else both are left
unchanged. -/
theorem claim_C2 (tol eps cval : K) (s : LMState K) (v : K) (h2 : 2 ≤ s.iteration) :
    (v ≤ s.fx →
      (step tol eps cval s v).1.a = (if s.x ≤ s.u then s.x else s.a) ∧
      (step tol eps cval s v).1.b = (if s.x ≤ s.u then s.b else s.x) ∧
      (step tol eps cval s v).1.v = s.w ∧ (step tol eps cval s v).1.fv = s.fw ∧
      (step tol eps cval s v).1.w = s.x ∧ (step tol eps cval s v).1.fw = s.fx ∧
      (step tol eps cval s v).1.x = s.u ∧ (step tol eps cval s v).1.fx = v) ∧
    (¬ v ≤ s.fx →
      (step tol eps cval s v).1.a = (if s.u < s.x then s.u else s.a) ∧
      (step tol eps cval s v).1.b = (if s.u < s.x then s.b else s.u) ∧
      (step tol eps cval s v).1.x = s.x ∧ (step tol eps cval s v).1.fx = s.fx ∧
      ((v ≤ s.fw ∨ s.w = s.x) →
        (step tol eps cval s v).1.v = s.w ∧ (step tol eps cval s v).1.fv = s.fw ∧
        (step tol eps cval s v).1.w = s.u ∧ (step tol eps cval s v).1.fw = v) ∧
      (¬ (v ≤ s.fw ∨ s.w = s.x) → (v ≤ s.fv ∨ s.v = s.x ∨ s.v = s.w) →
        (step tol eps cval s v).1.v = s.u ∧ (step tol eps cval s v).1.fv = v ∧
        (step tol eps cval s v).1.w = s.w ∧ (step tol eps cval s v).1.fw = s.fw) ∧
      (¬ (v ≤ s.fw ∨ s.w = s.x) → ¬ (v ≤ s.fv ∨ s.v = s.x ∨ s.v = s.w) →
        (step tol eps cval s v).1.v = s.v ∧ (step tol eps cval s v).1.fv = s.fv ∧
        (step tol eps cval s v).1.w = s.w ∧ (step tol eps cval s v).1.fw = s.fw)) := by
  have h0 : s.iteration ≠ 0 := by omega
  have h1 : s.iteration ≠ 1 := by omega
  rw [step_of_ne tol eps cval s v h0]
  obtain ⟨ka, kb, kx, kv, kw, kfx, kfv, kfw, -, -⟩ := tail_keeps tol eps (updateState s v)
  rw [ka, kb, kx, kv, kw, kfx, kfv, kfw]
  unfold updateState
  rw [if_neg h1, if_pos h2]
  constructor
  · intro hle
    rw [if_pos hle]
    simp
  · intro hgt
    rw [if_neg hgt]
    split_ifs <;> simp_all

theorem claim_C2_witness :
    (step (3 : ℚ) 0 (1/4) sC2 7).1.x = sC2.u ∧
    (step (3 : ℚ) 0 (1/4) sC2 7).1.fx = 7 := by
  have h := (claim_C2 (3 : ℚ) 0 (1/4) sC2 7 (by decide)).1 (by decide)
  exact ⟨h.2.2.2.2.2.2.1, h.2.2.2.2.2.2.2⟩

/-- Claim C1: every call that reaches the shared tail (phase `!= 0`)
and passes the convergence test
`|x - midpoint| <= tol2 - (high - low) / 2` (with
`midpoint = (low + high) / 2`, `tol1 = eps * |x| + tol / 3`,
`tol2 = 2 * tol1`, cf. `midpt` and `tol1`) sets `iterationCount` to `0`
and returns the stored `currentArg` unchanged, proposing no new point;
`low` and `high` are not reset and keep the values just narrowed by the
phase update. -/
theorem claim_C1 (tol eps cval : K) (s : LMState K) (v : K)
    (h0 : s.iteration ≠ 0)
    (hconv : |(updateState s v).x - midpt (updateState s v)| ≤
      2 * tol1 tol eps (updateState s v) - ((updateState s v).b - (updateState s v).a) / 2) :
    (step tol eps cval s v).1.iteration = 0 ∧
    (step tol eps cval s v).2 = s.arg ∧
    (step tol eps cval s v).1.arg = s.arg ∧
    (step tol eps cval s v).1.a = (updateState s v).a ∧
    (step tol eps cval s v).1.b = (updateState s v).b ∧
    (step tol eps cval s v).1 = { updateState s v with iteration := 0 } := by
  rw [step_of_ne tol eps cval s v h0, tail_conv tol eps (updateState s v) hconv]
  have harg := (update_keeps s v).2.1
  simp [harg]

theorem claim_C1_witness :
    (step (3 : ℚ) 0 (1/4) s1C1 5).1.iteration = 0 ∧
    (step (3 : ℚ) 0 (1/4) s1C1 5).2 = s1C1.arg := by
  have h := claim_C1 (3 : ℚ) 0 (1/4) s1C1 5 (by decide)
    (by norm_num [updateState, s1C1, midpt, tol1, abs_of_nonneg])
  exact ⟨h.1, h.2.1⟩

/-- Structural invariant of reachable states: the iteration counter is
never negative, and the stored `arg` is the point the previous call
proposed (`x` right after phase 0, `u` from phase 2 on). -/
lemma reaches_struct (tol eps cval : K) (s : LMState K) (h : Reaches tol eps cval s) :
    0 ≤ s.iteration ∧ (s.iteration = 1 → s.arg = s.x) ∧
    (2 ≤ s.iteration → s.arg = s.u) := by
  induction h with
  | init lo hi hlt => simp [initState]
  | next s v hs ih =>
    by_cases h0 : s.iteration = 0
    · simp [step, h0]
    · rw [step_of_ne tol eps cval s v h0]
      by_cases hc : |(updateState s v).x - midpt (updateState s v)| ≤
          2 * tol1 tol eps (updateState s v) - ((updateState s v).b - (updateState s v).a) / 2
      · rw [tail_conv tol eps (updateState s v) hc]
        simp
      · obtain ⟨hit, hu, harg⟩ := tail_frame tol eps (updateState s v) hc
        have kit := (update_keeps s v).1
        refine ⟨?_, ?_, ?_⟩
        · rw [hit, kit]; omega
        · intro hone
          rw [hit, kit] at hone
          exact absurd hone (by omega)
        · intro _
          rw [harg, hu]

/-- Claim C4: `IsReady` is a pure query (a function of the state in
this embedding, returning a new state nowhere, so repeated calls
trivially agree); it is true exactly when `iterationCount == 0`; it is
true immediately after construction; and after a `step` call from a
reachable state it is true exactly when that call converged (the call
that returns the final answer), i.e. false after every other call. -/
theorem claim_C4 (tol eps cval : K) :
    (∀ s : LMState K, IsReady s = true ↔ s.iteration = 0) ∧
    (∀ lo hi : K, IsReady (initState lo hi) = true) ∧
    (∀ (s : LMState K) (v : K), Reaches tol eps cval s →
      (IsReady (step tol eps cval s v).1 = true ↔
        (s.iteration ≠ 0 ∧
          |(updateState s v).x - midpt (updateState s v)| ≤
            2 * tol1 tol eps (updateState s v) -
              ((updateState s v).b - (updateState s v).a) / 2))) := by
  refine ⟨fun s => by simp [IsReady], fun lo hi => by simp [IsReady, initState], ?_⟩
  intro s v hr
  by_cases h0 : s.iteration = 0
  · simp [step, h0, IsReady]
  · rw [step_of_ne tol eps cval s v h0]
    by_cases hc : |(updateState s v).x - midpt (updateState s v)| ≤
        2 * tol1 tol eps (updateState s v) - ((updateState s v).b - (updateState s v).a) / 2
    · rw [tail_conv tol eps (updateState s v) hc]
      simp [IsReady, h0, hc]
    · obtain ⟨hit, -, -⟩ := tail_frame tol eps (updateState s v) hc
      have hnn := (reaches_struct tol eps cval s hr).1
      have kit := (update_keeps s v).1
      simp only [IsReady, hit, kit, beq_iff_eq]
      constructor
      · intro habs; exact absurd habs (by omega)
      · rintro ⟨-, habs⟩; exact absurd habs hc

theorem claim_C4_witness :
    IsReady (step (3 : ℚ) 0 (1/4) (initState 0 1) 0).1 = true ↔
      ((initState (0 : ℚ) 1).iteration ≠ 0 ∧
        |(updateState (initState (0 : ℚ) 1) 0).x - midpt (updateState (initState (0 : ℚ) 1) 0)| ≤
          2 * tol1 3 0 (updateState (initState (0 : ℚ) 1) 0) -
            ((updateState (initState (0 : ℚ) 1) 0).b - (updateState (initState (0 : ℚ) 1) 0).a) / 2) :=
  (claim_C4 (3 : ℚ) 0 (1/4)).2.2 (initState 0 1) 0 (Reaches.init 0 1 (by norm_num))

/-- Claim C9: a converging call returns the stored `currentArg`, which
on a reachable state in phase `>= 2` is the most recently proposed
trial point `u` - not necessarily the best sampled point: when the
supplied value is worse than `fx` (`fx < value`), the returned point's
recorded objective value `fu` is strictly greater than the best known
value `fx`. -/
theorem claim_C9 (tol eps cval : K) (s : LMState K) (v : K)
    (hr : Reaches tol eps cval s) (h2 : 2 ≤ s.iteration) (hworse : s.fx < v)
    (hconv : |(updateState s v).x - midpt (updateState s v)| ≤
      2 * tol1 tol eps (updateState s v) - ((updateState s v).b - (updateState s v).a) / 2) :
    (step tol eps cval s v).2 = s.arg ∧ (step tol eps cval s v).2 = s.u ∧
    (step tol eps cval s v).1.fx < (step tol eps cval s v).1.fu := by
  have h0 : s.iteration ≠ 0 := by omega
  have h1 : s.iteration ≠ 1 := by omega
  rw [step_of_ne tol eps cval s v h0, tail_conv tol eps (updateState s v) hconv]
  have harg := (update_keeps s v).2.1
  have hargu := (reaches_struct tol eps cval s hr).2.2 h2
  refine ⟨by simpa using harg, by simp [harg, hargu], ?_⟩
  show (updateState s v).fx < (updateState s v).fu
  unfold updateState
  rw [if_neg h1, if_pos h2, if_neg (not_le.mpr hworse)]
  split_ifs <;> simpa using hworse

/-- The value of the C9 witness state, by evaluation. -/
lemma s2C9_val :
    s2C9 =
      { a := 0, b := 1, iteration := 2, arg := 7/16, c := 1/4, d := 3/16,
        e := 3/4, fu := 0, fv := 10, fw := 10, fx := 10, p := 0, q := 0, r := 0,
        u := 7/16, v := 1/4, w := 1/4, x := 1/4 } := by
  norm_num [s2C9, step, initState, updateState, sharedTail, chooseStep, nextPoint,
    midpt, tol1, goldenDir, copysign, pfit, qfit, qfit0, rfit, abs_of_nonneg]

theorem claim_C9_witness :
    (step (3/8 : ℚ) 0 (1/4) s2C9 20).2 = s2C9.u ∧
    (step (3/8 : ℚ) 0 (1/4) s2C9 20).1.fx < (step (3/8 : ℚ) 0 (1/4) s2C9 20).1.fu := by
  have h := claim_C9 (3/8 : ℚ) 0 (1/4) s2C9 20
    (Reaches.next _ 10 (Reaches.next _ 0 (Reaches.init 0 1 (by norm_num))))
    (by rw [s2C9_val]) (by rw [s2C9_val]; norm_num)
    (by rw [s2C9_val]; norm_num [updateState, midpt, tol1, abs_of_nonneg])
  exact ⟨h.2.1, h.2.2⟩

/-- Claim C3 (amended): when the convergence test fails, the next step
size `d` is chosen as follows.  A golden-section step whenever
`|e| <= tol1`: `e` becomes `low - x` if `midpoint <= x` else
`high - x` (`goldenDir`), and `d = c * e`.  Otherwise a parabola is
fitted via `r = (x - w) * (fx - fv)`, `q = (x - v) * (fx - fw)`,
`p = (x - v) * q - (x - w) * r` with sign normalization (`rfit`,
`qfit`, `pfit`), and the parabolic step is rejected in favour of the
golden-section computation exactly when `|0.5 * q * r| <= |p|` - where
`r` at test time is the previous `e`, per the source's `r = e; e = d`
reassignments - or `p <= q * (low - x)` or `q * (high - x) <= p`; for
`0 < q` the latter two say that the predicted point `u = x + p / q`
would land on or outside the bracket boundary (`u <= low` or
`high <= u`), not merely strictly outside `[low, high]`.  An accepted
parabolic step `d = p / q` whose point lands within `tol2` of either
endpoint is clamped to `d = tol1` signed toward the midpoint. -/
theorem claim_C3 (tol eps cval : K) (s t : LMState K) (v : K)
    (hnc : ¬ |t.x - midpt t| ≤ 2 * tol1 tol eps t - (t.b - t.a) / 2) :
    (s.iteration ≠ 0 → step tol eps cval s v = sharedTail tol eps (updateState s v)) ∧
    (|t.e| ≤ tol1 tol eps t →
      (sharedTail tol eps t).1.e = goldenDir t ∧
      (sharedTail tol eps t).1.d = t.c * goldenDir t) ∧
    (¬ |t.e| ≤ tol1 tol eps t →
      ((|qfit t * t.e / 2| ≤ |pfit t| ∨ pfit t ≤ qfit t * (t.a - t.x) ∨
          qfit t * (t.b - t.x) ≤ pfit t) →
        (sharedTail tol eps t).1.e = goldenDir t ∧
        (sharedTail tol eps t).1.d = t.c * goldenDir t) ∧
      (¬ (|qfit t * t.e / 2| ≤ |pfit t| ∨ pfit t ≤ qfit t * (t.a - t.x) ∨
          qfit t * (t.b - t.x) ≤ pfit t) →
        (sharedTail tol eps t).1.d =
          (if t.x + pfit t / qfit t - t.a < 2 * tol1 tol eps t ∨
              t.b - (t.x + pfit t / qfit t) < 2 * tol1 tol eps t then
            copysign (tol1 tol eps t) (midpt t - t.x)
          else pfit t / qfit t)) ∧
      (0 < qfit t →
        ((|qfit t * t.e / 2| ≤ |pfit t| ∨ pfit t ≤ qfit t * (t.a - t.x) ∨
            qfit t * (t.b - t.x) ≤ pfit t) ↔
          (|qfit t * t.e / 2| ≤ |pfit t| ∨ t.x + pfit t / qfit t ≤ t.a ∨
            t.b ≤ t.x + pfit t / qfit t)))) := by
  refine ⟨step_of_ne tol eps cval s v, ?_, ?_⟩
  · intro hg
    unfold sharedTail
    rw [if_neg hnc]
    unfold chooseStep
    rw [if_pos hg]
    simp
  · intro hng
    refine ⟨?_, ?_, ?_⟩
    · intro hrej
      unfold sharedTail
      rw [if_neg hnc]
      unfold chooseStep
      rw [if_neg hng, if_pos hrej]
      simp
    · intro hacc
      unfold sharedTail
      rw [if_neg hnc]
      unfold chooseStep
      rw [if_neg hng, if_neg hacc]
    · intro hq
      have e1 : pfit t ≤ qfit t * (t.a - t.x) ↔ t.x + pfit t / qfit t ≤ t.a := by
        constructor
        · intro h
          have h2 : pfit t / qfit t ≤ t.a - t.x :=
            (div_le_iff₀ hq).mpr (by nlinarith)
          linarith
        · intro h
          have h2 : pfit t ≤ (t.a - t.x) * qfit t :=
            (div_le_iff₀ hq).mp (by linarith)
          nlinarith
      have e2 : qfit t * (t.b - t.x) ≤ pfit t ↔ t.b ≤ t.x + pfit t / qfit t := by
        constructor
        · intro h
          have h2 : t.b - t.x ≤ pfit t / qfit t :=
            (le_div_iff₀ hq).mpr (by nlinarith)
          linarith
        · intro h
          have h2 : (t.b - t.x) * qfit t ≤ pfit t :=
            (le_div_iff₀ hq).mp (by linarith)
          nlinarith
      rw [e1, e2]

/-- Witness for the amended C3: a concrete non-converged state in the
golden-section branch. -/
theorem claim_C3_witness :
    (sharedTail (3/100 : ℚ) 0 gC3).1.e = goldenDir gC3 ∧
    (sharedTail (3/100 : ℚ) 0 gC3).1.d = gC3.c * goldenDir gC3 :=
  (claim_C3 (3/100 : ℚ) 0 (1/4) (initState 0 1) gC3 0
      (by norm_num [gC3, midpt, tol1, abs_of_nonneg])).2.1
    (by norm_num [gC3, tol1, abs_of_nonneg])

/-- Counterexample to C3 as frozen: at the concrete call
`step 3 0 (1/4) sC3 1` (post-update state `tC3`) the convergence test
fails, the parabola branch is entered, `|0.5 * q * r| <= |p|` is false
under either reading of `r` (the fitted `r` or the previous `e`; both
are `2` here), the predicted point `x + p / q = 1/2` lies inside the
closed bracket `[-5, 1/2]` (it equals `high`), yet the source rejects
the parabola: the resulting `d` is the golden-section
`c * (low - x) = -5/4`, not the parabolic `p / q = 1/2` nor its
clamped value `copysign (tol1, midpoint - x) = -1`. -/
theorem claim_C3_counterexample :
    tC3 = updateState sC3 1 ∧
    ¬ |tC3.x - midpt tC3| ≤ 2 * tol1 3 0 tC3 - (tC3.b - tC3.a) / 2 ∧
    ¬ |tC3.e| ≤ tol1 3 0 tC3 ∧
    ¬ |qfit tC3 * tC3.e / 2| ≤ |pfit tC3| ∧
    ¬ |qfit tC3 * rfit tC3 / 2| ≤ |pfit tC3| ∧
    tC3.a ≤ tC3.x + pfit tC3 / qfit tC3 ∧
    tC3.x + pfit tC3 / qfit tC3 ≤ tC3.b ∧
    pfit tC3 / qfit tC3 = 1/2 ∧
    copysign (tol1 3 0 tC3) (midpt tC3 - tC3.x) = -1 ∧
    (step (3 : ℚ) 0 (1/4) sC3 1).1.d = -(5/4) ∧
    (step (3 : ℚ) 0 (1/4) sC3 1).1.d = 1/4 * (tC3.a - tC3.x) := by
  have hval : tC3 =
      { a := -5, b := 1/2, iteration := 2, arg := 0, c := 1/4, d := 0,
        e := 2, fu := 1, fv := -1, fw := -1, fx := 0, p := 0, q := 0,
        r := 0, u := -5, v := 3, w := -2, x := 0 } := by
    norm_num [tC3, sC3, updateState]
  refine ⟨rfl, ?_⟩
  rw [hval]
  norm_num [step, sC3, updateState, sharedTail, chooseStep, nextPoint, midpt,
    tol1, goldenDir, copysign, pfit, qfit, qfit0, rfit, abs_of_nonneg]

lemma copysign_of_neg (mag sgn : K) (h : sgn < 0) : copysign mag sgn = -|mag| := by
  rw [copysign, if_pos h]

lemma copysign_of_nonneg (mag sgn : K) (h : 0 ≤ sgn) : copysign mag sgn = |mag| := by
  rw [copysign, if_neg (not_lt.mpr h)]

lemma abs_copysign (mag sgn : K) : |copysign mag sgn| = |mag| := by
  rw [copysign]
  split_ifs <;> simp

lemma tol1_pos (tol eps : K) (s : LMState K) (htol : 0 < tol) (heps : 0 ≤ eps) :
    0 < tol1 tol eps s :=
  add_pos_of_nonneg_of_pos (mul_nonneg heps (abs_nonneg _)) (by linarith)

/-- When the convergence test fails and `midpoint <= x`, the left part
of the bracket is longer than `tol2`. -/
lemma notconv_left (tol eps : K) (s : LMState K)
    (ha : s.a ≤ s.x) (hb : s.x ≤ s.b)
    (hnc : ¬ |s.x - midpt s| ≤ 2 * tol1 tol eps s - (s.b - s.a) / 2)
    (hm : midpt s ≤ s.x) :
    2 * tol1 tol eps s < s.x - s.a := by
  rw [not_le] at hnc
  rw [abs_of_nonneg (sub_nonneg.mpr hm)] at hnc
  unfold midpt at hnc hm
  linarith

/-- When the convergence test fails and `x <= midpoint`, the right part
of the bracket is longer than `tol2`. -/
lemma notconv_right (tol eps : K) (s : LMState K)
    (ha : s.a ≤ s.x) (hb : s.x ≤ s.b)
    (hnc : ¬ |s.x - midpt s| ≤ 2 * tol1 tol eps s - (s.b - s.a) / 2)
    (hm : s.x ≤ midpt s) :
    2 * tol1 tol eps s < s.b - s.x := by
  rw [not_le] at hnc
  rw [abs_of_nonpos (sub_nonpos.mpr hm)] at hnc
  unfold midpt at hnc hm
  linarith

/-- Bounds on the point proposed after a golden-section step choice:
it is at least `tol1` away from `x`, and whichever side of `x` it lands
on, it stays at least `tol1` inside that end of the bracket. -/
lemma goldenStep_bounds (tol eps : K) (s s1 : LMState K)
    (hx : s1.x = s.x) (hd : s1.d = s.c * goldenDir s)
    (htol : 0 < tol) (heps : 0 ≤ eps)
    (hc0 : 0 < s.c) (hc2 : s.c ≤ 1/2)
    (ha : s.a ≤ s.x) (hb : s.x ≤ s.b)
    (hnc : ¬ |s.x - midpt s| ≤ 2 * tol1 tol eps s - (s.b - s.a) / 2) :
    tol1 tol eps s ≤ |nextPoint tol eps s1 - s.x| ∧
    (nextPoint tol eps s1 < s.x → tol1 tol eps s ≤ nextPoint tol eps s1 - s.a) ∧
    (s.x < nextPoint tol eps s1 → tol1 tol eps s ≤ s.b - nextPoint tol eps s1) := by
  have ht1 : 0 < tol1 tol eps s := tol1_pos tol eps s htol heps
  have hteq : tol1 tol eps s1 = tol1 tol eps s := by unfold tol1; rw [hx]
  unfold nextPoint
  rw [hteq, hx, hd]
  unfold goldenDir
  by_cases hm : midpt s ≤ s.x
  · rw [if_pos hm]
    have hxa := notconv_left tol eps s ha hb hnc hm
    split_ifs with hbig
    · have habs : |s.c * (s.a - s.x)| = s.c * (s.x - s.a) := by
        rw [abs_of_nonpos (mul_nonpos_of_nonneg_of_nonpos hc0.le (by linarith))]
        ring
      refine ⟨by simpa [add_sub_cancel_left] using hbig, ?_, ?_⟩
      · intro hlt
        rw [habs] at hbig
        have key : 0 ≤ (1/2 - s.c) * (s.x - s.a) :=
          mul_nonneg (by linarith) (by linarith)
        nlinarith [hxa, key]
      · intro hgt
        have hle : s.c * (s.a - s.x) ≤ 0 :=
          mul_nonpos_of_nonneg_of_nonpos hc0.le (by linarith)
        linarith
    · have hdneg : s.c * (s.a - s.x) < 0 :=
        mul_neg_of_pos_of_neg hc0 (by linarith)
      rw [copysign_of_neg _ _ hdneg, abs_of_pos ht1]
      refine ⟨?_, ?_, ?_⟩
      · rw [show s.x + -tol1 tol eps s - s.x = -tol1 tol eps s from by ring, abs_neg,
          abs_of_pos ht1]
      · intro hlt
        linarith
      · intro hgt
        linarith
  · rw [if_neg hm]
    have hxb := notconv_right tol eps s ha hb hnc (le_of_not_le hm)
    split_ifs with hbig
    · have habs : |s.c * (s.b - s.x)| = s.c * (s.b - s.x) :=
        abs_of_nonneg (mul_nonneg hc0.le (by linarith))
      refine ⟨by simpa [add_sub_cancel_left] using hbig, ?_, ?_⟩
      · intro hlt
        have hge : 0 ≤ s.c * (s.b - s.x) := mul_nonneg hc0.le (by linarith)
        linarith
      · intro hgt
        rw [habs] at hbig
        have key : 0 ≤ (1/2 - s.c) * (s.b - s.x) :=
          mul_nonneg (by linarith) (by linarith)
        nlinarith [hxb, key]
    · have hdpos : 0 < s.c * (s.b - s.x) := mul_pos hc0 (by linarith)
      rw [copysign_of_nonneg _ _ hdpos.le, abs_of_pos ht1]
      refine ⟨?_, ?_, ?_⟩
      · rw [show s.x + tol1 tol eps s - s.x = tol1 tol eps s from by ring, abs_of_pos ht1]
      · intro hlt
        linarith
      · intro hgt
        linarith

/-- Bounds on the point proposed after an accepted parabolic step
(with its endpoint clamps): same conclusions as for the golden-section
step. -/
lemma parabStep_bounds (tol eps : K) (s s1 : LMState K)
    (hx : s1.x = s.x)
    (hd : s1.d = if s.x + pfit s / qfit s - s.a < 2 * tol1 tol eps s ∨
        s.b - (s.x + pfit s / qfit s) < 2 * tol1 tol eps s then
      copysign (tol1 tol eps s) (midpt s - s.x)
    else pfit s / qfit s)
    (htol : 0 < tol) (heps : 0 ≤ eps)
    (ha : s.a ≤ s.x) (hb : s.x ≤ s.b)
    (hnc : ¬ |s.x - midpt s| ≤ 2 * tol1 tol eps s - (s.b - s.a) / 2)
    (hpl : qfit s * (s.a - s.x) < pfit s) (hpu : pfit s < qfit s * (s.b - s.x)) :
    tol1 tol eps s ≤ |nextPoint tol eps s1 - s.x| ∧
    (nextPoint tol eps s1 < s.x → tol1 tol eps s ≤ nextPoint tol eps s1 - s.a) ∧
    (s.x < nextPoint tol eps s1 → tol1 tol eps s ≤ s.b - nextPoint tol eps s1) := by
  have ht1 : 0 < tol1 tol eps s := tol1_pos tol eps s htol heps
  have hteq : tol1 tol eps s1 = tol1 tol eps s := by unfold tol1; rw [hx]
  unfold nextPoint
  rw [hteq, hx, hd]
  by_cases hcl : s.x + pfit s / qfit s - s.a < 2 * tol1 tol eps s ∨
      s.b - (s.x + pfit s / qfit s) < 2 * tol1 tol eps s
  · rw [if_pos hcl]
    have habs : |copysign (tol1 tol eps s) (midpt s - s.x)| = tol1 tol eps s := by
      rw [abs_copysign, abs_of_pos ht1]
    have hcond : tol1 tol eps s ≤ |copysign (tol1 tol eps s) (midpt s - s.x)| := by
      rw [habs]
    rw [if_pos hcond]
    by_cases hmx : midpt s - s.x < 0
    · rw [copysign_of_neg _ _ hmx, abs_of_pos ht1]
      have hxa := notconv_left tol eps s ha hb hnc (by linarith)
      refine ⟨?_, ?_, ?_⟩
      · rw [show s.x + -tol1 tol eps s - s.x = -tol1 tol eps s from by ring, abs_neg,
          abs_of_pos ht1]
      · intro hlt
        linarith
      · intro hgt
        linarith
    · push_neg at hmx
      rw [copysign_of_nonneg _ _ hmx, abs_of_pos ht1]
      have hxb := notconv_right tol eps s ha hb hnc (by linarith)
      refine ⟨?_, ?_, ?_⟩
      · rw [show s.x + tol1 tol eps s - s.x = tol1 tol eps s from by ring, abs_of_pos ht1]
      · intro hlt
        linarith
      · intro hgt
        linarith
  · rw [if_neg hcl]
    push_neg at hcl
    obtain ⟨hcl1, hcl2⟩ := hcl
    split_ifs with hbig
    · refine ⟨by simpa [add_sub_cancel_left] using hbig, ?_, ?_⟩
      · intro hlt
        linarith
      · intro hgt
        linarith
    · push_neg at hbig
      by_cases hdneg : pfit s / qfit s < 0
      · rw [copysign_of_neg _ _ hdneg, abs_of_pos ht1]
        refine ⟨?_, ?_, ?_⟩
        · rw [show s.x + -tol1 tol eps s - s.x = -tol1 tol eps s from by ring, abs_neg,
            abs_of_pos ht1]
        · intro hlt
          linarith
        · intro hgt
          linarith
      · push_neg at hdneg
        rw [copysign_of_nonneg _ _ hdneg, abs_of_pos ht1]
        refine ⟨?_, ?_, ?_⟩
        · rw [show s.x + tol1 tol eps s - s.x = tol1 tol eps s from by ring, abs_of_pos ht1]
        · intro hlt
          linarith
        · intro hgt
          linarith

/-- The point proposed by the non-converged shared tail is at least the
current `tol1` away from `x`, and at least `tol1` inside the end of the
bracket it lands on. -/
lemma tail_bounds (tol eps : K) (s : LMState K)
    (htol : 0 < tol) (heps : 0 ≤ eps) (hc0 : 0 < s.c) (hc2 : s.c ≤ 1/2)
    (ha : s.a ≤ s.x) (hb : s.x ≤ s.b)
    (hnc : ¬ |s.x - midpt s| ≤ 2 * tol1 tol eps s - (s.b - s.a) / 2) :
    tol1 tol eps s ≤ |(sharedTail tol eps s).2 - s.x| ∧
    ((sharedTail tol eps s).2 < s.x → tol1 tol eps s ≤ (sharedTail tol eps s).2 - s.a) ∧
    (s.x < (sharedTail tol eps s).2 → tol1 tol eps s ≤ s.b - (sharedTail tol eps s).2) := by
  have h2 : (sharedTail tol eps s).2 = nextPoint tol eps (chooseStep tol eps s) := by
    unfold sharedTail
    rw [if_neg hnc]
  rw [h2]
  unfold chooseStep
  by_cases hg : |s.e| ≤ tol1 tol eps s
  · rw [if_pos hg]
    exact goldenStep_bounds tol eps s _ rfl rfl htol heps hc0 hc2 ha hb hnc
  · rw [if_neg hg]
    by_cases hrej : |qfit s * s.e / 2| ≤ |pfit s| ∨ pfit s ≤ qfit s * (s.a - s.x) ∨
        qfit s * (s.b - s.x) ≤ pfit s
    · rw [if_pos hrej]
      exact goldenStep_bounds tol eps s _ rfl rfl htol heps hc0 hc2 ha hb hnc
    · rw [if_neg hrej]
      push_neg at hrej
      exact parabStep_bounds tol eps s _ rfl rfl htol heps ha hb hnc hrej.2.1 hrej.2.2

/-- The phase update never widens the bracket and keeps `x` inside it. -/
lemma update_bounds (s : LMState K) (v : K)
    (hab : s.a ≤ s.b)
    (hx : s.a ≤ s.x) (hxb : s.x ≤ s.b)
    (hu : 2 ≤ s.iteration → s.a ≤ s.u ∧ s.u ≤ s.b) :
    (updateState s v).a ≤ (updateState s v).x ∧
    (updateState s v).x ≤ (updateState s v).b ∧
    (updateState s v).b - (updateState s v).a ≤ s.b - s.a := by
  unfold updateState
  by_cases hit1 : s.iteration = 1
  · rw [if_pos hit1]
    exact ⟨hx, hxb, le_refl _⟩
  · rw [if_neg hit1]
    by_cases hit2 : 2 ≤ s.iteration
    · rw [if_pos hit2]
      obtain ⟨hau, hub⟩ := hu hit2
      split_ifs <;> refine ⟨?_, ?_, ?_⟩ <;> simp <;> linarith
    · rw [if_neg hit2]
      exact ⟨hx, hxb, le_refl _⟩

/-- Arithmetic invariant of reachable states (for constants satisfying
`0 < tol`, `0 <= eps`, `0 < c <= 1/2`, which hold for the source's
machine constants): the bracket is ordered, `x` stays inside it, and
from phase 2 on the pending trial point `u` is inside it as well. -/
def InvA (s : LMState K) : Prop :=
  0 ≤ s.iteration ∧ s.a ≤ s.b ∧
  (1 ≤ s.iteration → s.a ≤ s.x ∧ s.x ≤ s.b ∧ 0 < s.c ∧ s.c ≤ 1/2) ∧
  (2 ≤ s.iteration → s.a ≤ s.u ∧ s.u ≤ s.b)

/-- One step preserves `InvA` and never widens the bracket. -/
lemma invA_step (tol eps cval : K) (htol : 0 < tol) (heps : 0 ≤ eps)
    (hc0 : 0 < cval) (hc2 : cval ≤ 1/2) (s : LMState K) (v : K)
    (h : InvA s) :
    InvA (step tol eps cval s v).1 ∧
    (step tol eps cval s v).1.b - (step tol eps cval s v).1.a ≤ s.b - s.a := by
  obtain ⟨hit, hab, hx1, hu2⟩ := h
  by_cases h0 : s.iteration = 0
  · rw [step, if_pos h0]
    refine ⟨⟨by norm_num, hab, ?_, ?_⟩, by simp⟩
    · intro _
      refine ⟨?_, ?_, hc0, hc2⟩
      · simp only []
        nlinarith [mul_nonneg hc0.le (sub_nonneg.mpr hab)]
      · simp only []
        nlinarith [mul_nonneg (by linarith : (0:K) ≤ 1 - cval) (sub_nonneg.mpr hab)]
    · intro habs
      simp at habs
  · have h1 : 1 ≤ s.iteration := by omega
    obtain ⟨hax', hxb', hcc0, hcc2⟩ := hx1 h1
    rw [step_of_ne tol eps cval s v h0]
    obtain ⟨hax, hxb, hwidth⟩ := update_bounds s v hab hax' hxb' hu2
    have hc' : (updateState s v).c = s.c := (update_keeps s v).2.2.2.1
    have hit' : (updateState s v).iteration = s.iteration := (update_keeps s v).1
    have hct0 : 0 < (updateState s v).c := by rw [hc']; exact hcc0
    have hct2 : (updateState s v).c ≤ 1/2 := by rw [hc']; exact hcc2
    by_cases hcv : |(updateState s v).x - midpt (updateState s v)| ≤
        2 * tol1 tol eps (updateState s v) -
          ((updateState s v).b - (updateState s v).a) / 2
    · rw [tail_conv tol eps (updateState s v) hcv]
      refine ⟨⟨by norm_num, by simp; linarith, ?_, ?_⟩, by simp; linarith⟩
      · intro habs
        simp at habs
      · intro habs
        simp at habs
    · have ht1 : 0 < tol1 tol eps (updateState s v) :=
        tol1_pos tol eps (updateState s v) htol heps
      obtain ⟨T2, T3, T4⟩ := tail_bounds tol eps (updateState s v)
        htol heps hct0 hct2 hax hxb hcv
      obtain ⟨fit, fu, farg⟩ := tail_frame tol eps (updateState s v) hcv
      obtain ⟨ka, kb, kx, -, -, -, -, -, -, kc⟩ := tail_keeps tol eps (updateState s v)
      have hret : (updateState s v).a ≤ (sharedTail tol eps (updateState s v)).2 ∧
          (sharedTail tol eps (updateState s v)).2 ≤ (updateState s v).b := by
        rcases lt_trichotomy ((sharedTail tol eps (updateState s v)).2)
            ((updateState s v).x) with hlt | heq | hgt
        · have h3 := T3 hlt
          exact ⟨by linarith, by linarith⟩
        · exact ⟨by linarith, by linarith⟩
        · have h4 := T4 hgt
          exact ⟨by linarith, by linarith⟩
      refine ⟨⟨?_, ?_, ?_, ?_⟩, ?_⟩
      · rw [fit, hit']
        omega
      · rw [ka, kb]
        linarith
      · intro _
        rw [ka, kb, kx, kc]
        exact ⟨hax, hxb, hct0, hct2⟩
      · intro _
        rw [ka, kb, fu]
        exact hret
      · rw [ka, kb]
        linarith

/-- Every reachable state satisfies `InvA`. -/
lemma reaches_invA (tol eps cval : K) (htol : 0 < tol) (heps : 0 ≤ eps)
    (hc0 : 0 < cval) (hc2 : cval ≤ 1/2) (s : LMState K)
    (hr : Reaches tol eps cval s) : InvA s := by
  induction hr with
  | init lo hi hlt =>
    refine ⟨by norm_num [initState], by simp [initState]; linarith, ?_, ?_⟩ <;>
      · intro habs
        norm_num [initState] at habs
  | next s v hs ih => exact (invA_step tol eps cval htol heps hc0 hc2 s v ih).1

/-- Claim C6: for every `step` call from a reachable state (under the
standing constant hypotheses, satisfied by the source's machine
constants `tol = DBL_EPSILON`, `eps = sqrt tol`,
`c = (3 - sqrt 5) / 2 ≈ 0.382`), the bracket width `high - low` does
not increase: the interval `[low, high]` never widens. -/
theorem claim_C6 (tol eps cval : K) (htol : 0 < tol) (heps : 0 ≤ eps)
    (hc0 : 0 < cval) (hc2 : cval ≤ 1/2) (s : LMState K) (v : K)
    (hr : Reaches tol eps cval s) :
    (step tol eps cval s v).1.b - (step tol eps cval s v).1.a ≤ s.b - s.a :=
  (invA_step tol eps cval htol heps hc0 hc2 s v
    (reaches_invA tol eps cval htol heps hc0 hc2 s hr)).2

theorem claim_C6_witness :
    (step (3 : ℚ) 0 (1/4) (initState 0 1) 0).1.b -
      (step (3 : ℚ) 0 (1/4) (initState 0 1) 0).1.a ≤
      (initState (0 : ℚ) 1).b - (initState (0 : ℚ) 1).a :=
  claim_C6 3 0 (1/4) (by norm_num) (by norm_num) (by norm_num) (by norm_num)
    (initState 0 1) 0 (Reaches.init 0 1 (by norm_num))

/-- Claim C7: during a search (a call from a reachable state with
`iterationCount >= 1` that does not converge), the newly proposed point
is at least the current `tol1` away from the previously proposed point
(the stored `currentArg`): the final trial point is `u = x + d` if
`|d| >= tol1`, else `u = x + sign (d) * tol1`, so the algorithm never
evaluates two consecutive points closer than `tol1` apart.  Constant
hypotheses as in C6. -/
theorem claim_C7 (tol eps cval : K) (htol : 0 < tol) (heps : 0 ≤ eps)
    (hc0 : 0 < cval) (hc2 : cval ≤ 1/2) (s : LMState K) (v : K)
    (hr : Reaches tol eps cval s) (h1 : 1 ≤ s.iteration)
    (hnc : ¬ |(updateState s v).x - midpt (updateState s v)| ≤
      2 * tol1 tol eps (updateState s v) -
        ((updateState s v).b - (updateState s v).a) / 2) :
    tol1 tol eps (updateState s v) ≤ |(step tol eps cval s v).2 - s.arg| := by
  have h0 : s.iteration ≠ 0 := by omega
  obtain ⟨hit, hab, hx1, hu2⟩ := reaches_invA tol eps cval htol heps hc0 hc2 s hr
  obtain ⟨hax', hxb', hcc0, hcc2⟩ := hx1 h1
  obtain ⟨hax, hxb, -⟩ := update_bounds s v hab hax' hxb' hu2
  have hct0 : 0 < (updateState s v).c := by
    rw [(update_keeps s v).2.2.2.1]; exact hcc0
  have hct2 : (updateState s v).c ≤ 1/2 := by
    rw [(update_keeps s v).2.2.2.1]; exact hcc2
  have ht1 : 0 < tol1 tol eps (updateState s v) :=
    tol1_pos tol eps (updateState s v) htol heps
  obtain ⟨T2, T3, T4⟩ :=
    tail_bounds tol eps (updateState s v) htol heps hct0 hct2 hax hxb hnc
  rw [step_of_ne tol eps cval s v h0]
  obtain ⟨-, harg1, harg2⟩ := reaches_struct tol eps cval s hr
  by_cases hit1 : s.iteration = 1
  · have hx_eq : (updateState s v).x = s.x := by
      unfold updateState
      rw [if_pos hit1]
    rw [harg1 hit1, ← hx_eq]
    exact T2
  · have hit2 : 2 ≤ s.iteration := by omega
    rw [harg2 hit2]
    by_cases hvf : v ≤ s.fx
    · have hx_eq : (updateState s v).x = s.u := by
        unfold updateState
        rw [if_neg hit1, if_pos hit2, if_pos hvf]
      rw [← hx_eq]
      exact T2
    · have hx_eq : (updateState s v).x = s.x := by
        unfold updateState
        rw [if_neg hit1, if_pos hit2, if_neg hvf]
        split_ifs <;> rfl
      by_cases hux : s.u < s.x
      · have ha_eq : (updateState s v).a = s.u := by
          unfold updateState
          rw [if_neg hit1, if_pos hit2, if_neg hvf]
          split_ifs <;> first | rfl | linarith
        rcases lt_trichotomy ((sharedTail tol eps (updateState s v)).2)
            ((updateState s v).x) with hlt | heq | hgt
        · have h3 := T3 hlt
          rw [ha_eq] at h3
          rw [abs_of_nonneg (by linarith)]
          linarith
        · rw [heq, sub_self, abs_zero] at T2
          linarith
        · have h2' : tol1 tol eps (updateState s v) ≤
              (sharedTail tol eps (updateState s v)).2 - (updateState s v).x := by
            rw [abs_of_nonneg (by linarith)] at T2
            linarith
          rw [hx_eq] at hgt h2'
          rw [abs_of_nonneg (by linarith)]
          linarith
      · push_neg at hux
        have hb_eq : (updateState s v).b = s.u := by
          unfold updateState
          rw [if_neg hit1, if_pos hit2, if_neg hvf]
          split_ifs <;> first | rfl | linarith
        rcases lt_trichotomy ((sharedTail tol eps (updateState s v)).2)
            ((updateState s v).x) with hlt | heq | hgt
        · have h2' : tol1 tol eps (updateState s v) ≤
              (updateState s v).x - (sharedTail tol eps (updateState s v)).2 := by
            rw [abs_of_nonpos (by linarith)] at T2
            linarith
          rw [hx_eq] at hlt h2'
          rw [abs_of_nonpos (by linarith)]
          linarith
        · rw [heq, sub_self, abs_zero] at T2
          linarith
        · have h4 := T4 hgt
          rw [hb_eq] at h4
          rw [abs_of_nonpos (by linarith)]
          linarith

/-- The value of the C7 witness state, by evaluation. -/
lemma s1C7_val :
    s1C7 =
      { a := 0, b := 1, iteration := 1, arg := 1/4, c := 1/4, d := 0, e := 0,
        fu := 0, fv := 0, fw := 0, fx := 0, p := 0, q := 0, r := 0, u := 0,
        v := 1/4, w := 1/4, x := 1/4 } := by
  norm_num [s1C7, step, initState]

theorem claim_C7_witness :
    tol1 (3/100 : ℚ) 0 (updateState s1C7 10) ≤
      |(step (3/100 : ℚ) 0 (1/4) s1C7 10).2 - s1C7.arg| :=
  claim_C7 (3/100) 0 (1/4) (by norm_num) (by norm_num) (by norm_num) (by norm_num)
    s1C7 10 (Reaches.next _ 0 (Reaches.init 0 1 (by norm_num)))
    (by rw [s1C7_val])
    (by rw [s1C7_val]; norm_num [updateState, midpt, tol1, abs_of_nonneg])

end LocalMinRC
